import Mathlib

/-!
Verification of the IMAP client core of jamail (src/imap.cc, src/imap.h,
src/utils.cc) against its natural-language specification.

The model is a shallow embedding of the C++ source:

* A received line is a `List Char`; the `std::istringstream` cursor is the
  unconsumed suffix of that list.  Each recursive-descent routine of
  src/imap.cc (anonymous namespace) becomes a function returning `PResult`:
  `.ok v rest` models a normal return with the stream advanced, `.err msg`
  models `throw imap_parse_error(msg)`, and `.more` models
  `throw imap_need_more()`.
* The connection object `IMAP` becomes the record `ConnState`; the session
  automaton of `IMAP::process_recv` becomes `handle_line`, which consumes one
  CRLF-terminated line.  Exceptions that escape `process_recv`
  (`imap_parse_error` outside the one catch block, and `std::runtime_error`)
  become the `.fatal msg s` result, where `s` is the object state at the
  throw point (mutations performed before the throw are included).
* The framing loop of `IMAP::process_recv` becomes `process_loop` /
  `process_recv`, and the `IMAP::try_read` append/process/erase cycle becomes
  `feed_chunks`.
* `IMAP::send_command` in the C++ also calls `try_write`, which only drains
  `m_send_buf` through the TLS layer and never touches the parsing state;
  the drain is modelled separately by `try_write`, whose `written` argument
  stands for the value returned by `SSL_write`.
-/

namespace Jamail

/-- Result of one parsing routine over an input line: a value plus the
unconsumed rest of the stream, a raised `imap_parse_error`, or a raised
`imap_need_more`. -/
inductive PResult (α : Type) where
  | ok (a : α) (rest : List Char)
  | err (msg : String)
  | more
  deriving DecidableEq, Repr

/-- Whether a `PResult` is a normal return. -/
def PResult.isOk {α : Type} : PResult α → Bool
  | .ok _ _ => true
  | _ => false

/-- The C `isspace` characters (C locale), as they can occur on the wire. -/
def isSpace (c : Char) : Bool :=
  c = ' ' || c = '\t' || c = '\n' || c = '\x0b' || c = '\x0c' || c = '\r'

/-- Decimal digit test used by the `operator>>` number extractions. -/
def isDigit (c : Char) : Bool :=
  '0' ≤ c && c ≤ '9'

/-- `is_atom` from src/imap.cc: a character usable in an IMAP atom. -/
def is_atom (c : Char) : Bool :=
  !(isSpace c) && c ≠ '(' && c ≠ ')' && c ≠ '{' && c ≠ '[' && c ≠ ']'

/-- `check` from src/imap.cc: skip leading space and test the next character.
The C++ version consumes the skipped space from the stream, so the advanced
stream is returned together with the answer. -/
def checkTok (tok : Char) (l : List Char) : Bool × List Char :=
  let l1 := l.dropWhile isSpace
  match l1 with
  | c :: _ => (c = tok, l1)
  | [] => (false, [])

/-- `skip` from src/imap.cc: like `checkTok` but consuming the matched
character. -/
def skipTok (tok : Char) (l : List Char) : Bool × List Char :=
  let l1 := l.dropWhile isSpace
  match l1 with
  | c :: rest => if c = tok then (true, rest) else (false, l1)
  | [] => (false, [])

/-- `expect` from src/imap.cc: `is >> c` skips space and reads one char;
eof or a different char raises a parse error. -/
def expectTok (tok : Char) (l : List Char) : PResult Unit :=
  match l.dropWhile isSpace with
  | c :: rest =>
      if c = tok then .ok () rest
      else .err (String.push "Expected token " tok)
  | [] => .err (String.push "Expected token " tok)

/-- Value of a list of decimal digits. -/
def natOfDigits (ds : List Char) : Nat :=
  ds.foldl (fun a c => a * 10 + (c.toNat - '0'.toNat)) 0

/-- `is >> length` for `size_t`: skip space, optional sign, decimal digits.
A missing digit run or an out-of-range magnitude sets the stream fail bit
(modelled as `none`); as in C++, a minus sign wraps the value modulo
`2 ^ 64`. -/
def readSize (l : List Char) : Option (Nat × List Char) :=
  let l1 := l.dropWhile isSpace
  let signed : Bool × List Char :=
    match l1 with
    | '-' :: r => (true, r)
    | '+' :: r => (false, r)
    | _ => (false, l1)
  let ds := signed.2.takeWhile isDigit
  if ds.isEmpty then none
  else
    let n := natOfDigits ds
    if n < 2 ^ 64 then
      some ((if signed.1 then (2 ^ 64 - n % 2 ^ 64) % 2 ^ 64 else n),
            signed.2.dropWhile isDigit)
    else none

/-- `parser >> id` for `int`: skip space, optional sign, decimal digits; a
missing digit run or overflow of the 32-bit range sets the fail bit
(modelled as `none`). -/
def readInt (l : List Char) : Option (Int × List Char) :=
  let l1 := l.dropWhile isSpace
  let signed : Bool × List Char :=
    match l1 with
    | '-' :: r => (true, r)
    | '+' :: r => (false, r)
    | _ => (false, l1)
  let ds := signed.2.takeWhile isDigit
  if ds.isEmpty then none
  else
    let n := natOfDigits ds
    if signed.1 then
      if n ≤ 2 ^ 31 then some (-(n : Int), signed.2.dropWhile isDigit) else none
    else
      if n < 2 ^ 31 then some ((n : Int), signed.2.dropWhile isDigit) else none

/-- `parser >> status` for `std::string`: skip space, then a maximal run of
non-space characters (empty at end of input, as in C++ where the failed
extraction leaves the string empty). -/
def readWord (l : List Char) : List Char × List Char :=
  let l1 := l.dropWhile isSpace
  (l1.takeWhile (fun c => !isSpace c), l1.dropWhile (fun c => !isSpace c))

/-- `parse_astring` from src/imap.cc: a maximal nonempty run of atom
characters, after skipping leading space. -/
def parse_astring (l : List Char) : PResult (List Char) :=
  match l.dropWhile isSpace with
  | c :: rest =>
      if is_atom c then
        .ok (c :: rest.takeWhile is_atom) (rest.dropWhile is_atom)
      else .err "Expected an atom string"
  | [] => .err "Expected an atom string"

/-- Body of the quoted-string loop of `parse_string`: read characters up to
the closing quote, handling `\"` and `\\` escapes; eof before the closing
quote is an error. -/
def parse_quoted (l : List Char) : PResult (List Char) :=
  match l with
  | [] => .err "Unterminated string"
  | c :: rest =>
      if c = '"' then .ok [] rest
      else if c = '\\' then
        match rest with
        | [] => .err "Invalid escaped char"
        | d :: rest2 =>
            if d = '"' || d = '\\' then
              match parse_quoted rest2 with
              | .ok out r => .ok (d :: out) r
              | .err m => .err m
              | .more => .more
            else .err "Invalid escaped char"
      else
        match parse_quoted rest with
        | .ok out r => .ok (c :: out) r
        | .err m => .err m
        | .more => .more
termination_by l.length
decreasing_by all_goals (simp_all; try omega)

/-- The skip-to-CR loop of the literal branch of `parse_string`: consume
space characters until the CR; a non-space character is junk, and eof means
the CRLF that precedes the literal payload has not arrived yet
(`imap_need_more`). -/
def skipJunkToCR (l : List Char) : PResult Unit :=
  match l with
  | [] => .more
  | c :: rest =>
      if c = '\r' then .ok () rest
      else if isSpace c then skipJunkToCR rest
      else .err "Junk before CRLF"

/-- `parse_string` from src/imap.cc: a literal `{N}CRLF<N bytes>`, a quoted
string, or `NIL` (empty value). -/
def parse_string (l : List Char) : PResult (List Char) :=
  match skipTok '{' l with
  | (true, r1) =>
      match readSize r1 with
      | none => .err "Invalid literal length"
      | some (length, r2) =>
          match expectTok '}' r2 with
          | .err m => .err m
          | .more => .more
          | .ok _ r3 =>
              match skipJunkToCR r3 with
              | .err m => .err m
              | .more => .more
              | .ok _ r4 =>
                  match r4 with
                  | '\n' :: r5 =>
                      if length ≤ r5.length then
                        .ok (r5.take length) (r5.drop length)
                      else .more
                  | _ => .err "Expected an LF"
  | (false, l1) =>
      match skipTok '"' l1 with
      | (true, r2) => parse_quoted r2
      | (false, l2) =>
          match parse_astring l2 with
          | .ok atomStr rest =>
              if atomStr = "NIL".toList then .ok [] rest
              else .err "Not a string or a NIL"
          | .err m => .err m
          | .more => .more

/-- Sequencing of parse steps: mirror of straight-line C++ code where a
raised exception aborts the rest of the routine. -/
def PResult.bind {α β : Type} (r : PResult α) (f : α → List Char → PResult β) :
    PResult β :=
  match r with
  | .ok a rest => f a rest
  | .err m => .err m
  | .more => .more

/-- `to_unicode` from src/utils.cc: bytes at or above 128 are replaced by a
question mark, the rest are kept. -/
def to_unicode (l : List Char) : List Char :=
  l.map (fun c => if 128 ≤ c.toNat then '?' else c)

/-- `Header_Address` from src/imap.h. -/
structure Header_Address where
  name : List Char
  email : List Char
  deriving DecidableEq, Repr

/-- `Envelope` from src/imap.h.  In the C++ the `id` field of a
default-constructed `Envelope` is an uninitialized `int` that is always
overwritten (by `process_recv`) before use; the model defaults it to 0. -/
structure Envelope where
  id : Int := 0
  date : List Char := []
  subject : List Char := []
  from_ : List Header_Address := []
  sender : List Header_Address := []
  reply_to : List Header_Address := []
  to_ : List Header_Address := []
  cc : List Header_Address := []
  bcc : List Header_Address := []
  parent_id : List Char := []
  message_id : List Char := []
  deriving DecidableEq, Repr

/-- The `while (!skip(parser, ')'))` loop of `parse_address_list`.  The fuel
argument only bounds the number of loop iterations; every iteration consumes
at least one input character, so the `input length + 1` fuel supplied by
`parse_address_list` can never run out. -/
def parse_address_loop : Nat → List Char → PResult (List Header_Address)
  | 0, _ => .err "out of fuel"
  | fuel + 1, l =>
    match skipTok ')' l with
    | (true, rest) => .ok [] rest
    | (false, l1) =>
      (expectTok '(' l1).bind fun _ r1 =>
      (parse_string r1).bind fun name r2 =>
      (parse_string r2).bind fun _ignored r3 =>
      (parse_string r3).bind fun mailbox r4 =>
      (parse_string r4).bind fun host r5 =>
      (expectTok ')' r5).bind fun _ r6 =>
      (parse_address_loop fuel r6).bind fun addrs rest =>
      .ok ({ name := to_unicode name,
             email := to_unicode (mailbox ++ '@' :: host) } :: addrs) rest

/-- `parse_address_list` from src/imap.cc: `NIL`, or a parenthesized
sequence of `(name ignored mailbox host)` tuples. -/
def parse_address_list (l : List Char) : PResult (List Header_Address) :=
  match skipTok '(' l with
  | (true, r1) => parse_address_loop (r1.length + 1) r1
  | (false, l1) =>
      match parse_astring l1 with
      | .ok atomStr rest =>
          if atomStr = "NIL".toList then .ok [] rest
          else .err "Not an address list or a NIL"
      | .err m => .err m
      | .more => .more

/-- `parse_envelope` from src/imap.cc: the fixed ten-field envelope. -/
def parse_envelope (l : List Char) : PResult Envelope :=
  (expectTok '(' l).bind fun _ r0 =>
  (parse_string r0).bind fun date r1 =>
  (parse_string r1).bind fun subject r2 =>
  (parse_address_list r2).bind fun fromA r3 =>
  (parse_address_list r3).bind fun senderA r4 =>
  (parse_address_list r4).bind fun replyToA r5 =>
  (parse_address_list r5).bind fun toA r6 =>
  (parse_address_list r6).bind fun ccA r7 =>
  (parse_address_list r7).bind fun bccA r8 =>
  (parse_string r8).bind fun parentId r9 =>
  (parse_string r9).bind fun messageId r10 =>
  (expectTok ')' r10).bind fun _ rest =>
  .ok { date := to_unicode date, subject := to_unicode subject,
        from_ := fromA, sender := senderA, reply_to := replyToA,
        to_ := toA, cc := ccA, bcc := bccA,
        parent_id := to_unicode parentId,
        message_id := to_unicode messageId } rest

/-- The parameter-list loop of `parse_body_struct`. -/
def parse_param_loop : Nat → List Char → PResult Unit
  | 0, _ => .err "out of fuel"
  | fuel + 1, l =>
    match skipTok ')' l with
    | (true, rest) => .ok () rest
    | (false, l1) =>
      (parse_string l1).bind fun _key r1 =>
      (parse_string r1).bind fun _val r2 =>
      parse_param_loop fuel r2

mutual

/-- `parse_body_struct` from src/imap.cc: nested multipart structures or a
single leaf part; every field is consumed, all values are discarded. -/
def parse_body_struct : Nat → List Char → PResult Unit
  | 0, _ => .err "out of fuel"
  | fuel + 1, l =>
    (expectTok '(' l).bind fun _ r0 =>
    (match checkTok '(' r0 with
     | (true, r1) =>
       (parse_body_seq fuel r1).bind fun _ r2 =>
       (parse_string r2).bind fun _subtype r3 =>
       .ok () r3
     | (false, r1) =>
       (parse_string r1).bind fun ty r2 =>
       (parse_string r2).bind fun subty r3 =>
       (match skipTok '(' r3 with
        | (true, r4) => parse_param_loop (r4.length + 1) r4
        | (false, r4) =>
            match parse_astring r4 with
            | .ok atomStr rest =>
                if atomStr = "NIL".toList then .ok () rest
                else .err "Not a param list or a NIL"
            | .err m => .err m
            | .more => .more).bind fun _ r5 =>
       (parse_string r5).bind fun _id r6 =>
       (parse_string r6).bind fun _descr r7 =>
       (parse_string r7).bind fun _enc r8 =>
       (match readSize r8 with
        | none => PResult.err "Invalid body part size"
        | some (_, r9) => .ok () r9).bind fun _ r9 =>
       if ty = "TEXT".toList then
         match readSize r9 with
         | none => .err "Invalid number of lines"
         | some (_, r10) => .ok () r10
       else if ty = "MESSAGE".toList && subty = "RFC822".toList then
         (parse_envelope r9).bind fun _ r10 =>
         (parse_body_struct fuel r10).bind fun _ r11 =>
         match readSize r11 with
         | none => .err "Invalid number of lines"
         | some (_, r12) => .ok () r12
       else .ok () r9).bind fun _ rEnd =>
    (expectTok ')' rEnd).bind fun _ rest =>
    .ok () rest

/-- The `while (check(parser, '('))` loop of `parse_body_struct`. -/
def parse_body_seq : Nat → List Char → PResult Unit
  | 0, _ => .err "out of fuel"
  | fuel + 1, l =>
    match checkTok '(' l with
    | (true, l1) =>
      (parse_body_struct fuel l1).bind fun _ r1 =>
      parse_body_seq fuel r1
    | (false, l1) => .ok () l1

end

/-- The flag loop of the `FLAGS` branch of `parse_fetch_reply`. -/
def parse_flags_loop : Nat → List Char → PResult Unit
  | 0, _ => .err "out of fuel"
  | fuel + 1, l =>
    match skipTok ')' l with
    | (true, rest) => .ok () rest
    | (false, l1) =>
      (parse_astring l1).bind fun _flag r1 =>
      parse_flags_loop fuel r1

/-- The field loop of `parse_fetch_reply`.  Unknown field names fall to the
last branch: the C++ prints a `debug` diagnostic naming the field and
continues; the model records the diagnosed field names in `diags`. -/
def parse_fetch_fields :
    Nat → Envelope → List (List Char) → List Char →
    PResult (Envelope × List (List Char))
  | 0, _, _, _ => .err "out of fuel"
  | fuel + 1, env, diags, l =>
    match skipTok ')' l with
    | (true, rest) => .ok (env, diags) rest
    | (false, l1) =>
      (parse_astring l1).bind fun ty r =>
      if ty = "INTERNALDATE".toList then
        (parse_string r).bind fun _date r2 =>
        parse_fetch_fields fuel env diags r2
      else if ty = "RFC822.SIZE".toList then
        match readSize r with
        | none => .err "Invalid msg size"
        | some (_, r2) => parse_fetch_fields fuel env diags r2
      else if ty = "FLAGS".toList then
        (expectTok '(' r).bind fun _ r2 =>
        (parse_flags_loop (r2.length + 1) r2).bind fun _ r3 =>
        parse_fetch_fields fuel env diags r3
      else if ty = "ENVELOPE".toList then
        (parse_envelope r).bind fun env2 r2 =>
        parse_fetch_fields fuel env2 diags r2
      else if ty = "BODY".toList then
        (parse_body_struct (r.length + 1) r).bind fun _ r2 =>
        parse_fetch_fields fuel env diags r2
      else
        parse_fetch_fields fuel env (diags ++ [ty]) r

/-- `parse_fetch_reply` from src/imap.cc: the parenthesized field group of
one untagged FETCH reply. -/
def parse_fetch_reply (l : List Char) : PResult (Envelope × List (List Char)) :=
  (expectTok '(' l).bind fun _ r =>
  parse_fetch_fields (r.length + 1) {} [] r

/-- `parse_body_reply` from src/imap.cc: `(BODY[TEXT] <string>)`; note the
C++ returns without consuming the closing parenthesis. -/
def parse_body_reply (l : List Char) : PResult (List Char) :=
  (expectTok '(' l).bind fun _ r =>
  (parse_astring r).bind fun b r1 =>
  if b ≠ "BODY".toList then .err "Expected BODY" else
  (expectTok '[' r1).bind fun _ r2 =>
  (parse_astring r2).bind fun t r3 =>
  if t ≠ "TEXT".toList then .err "Expected TEXT" else
  (expectTok ']' r3).bind fun _ r4 =>
  parse_string r4

/-- The state enumeration of `IMAP` (src/imap.h). -/
inductive SState where
  | sIdle
  | sConnecting
  | sLogin
  | sSelect
  | sFetch
  | sFetchBody
  deriving DecidableEq, Repr

/-- The fields of the `IMAP` object that the session logic touches.  The
socket, TLS handle and read watch live in the excluded transport layer;
`writeWatch` models `m_write_watch != INVALID_GTK_WATCH`. -/
structure ConnState where
  state : SState
  user : List Char
  pw : List Char
  sendBuf : List Char
  writeWatch : Bool
  nextCmdId : Int
  nextReplyId : Int
  deriving DecidableEq, Repr

/-- Connection fields as the `IMAP` constructor leaves them (src/imap.cc):
state `S_IDLE`, empty buffers, no write watch, both counters 1. -/
def init_conn (user pw : List Char) : ConnState :=
  { state := .sIdle, user := user, pw := pw, sendBuf := [],
    writeWatch := false, nextCmdId := 1, nextReplyId := 1 }

/-- Decimal rendering of an `int`, as `%d` produces it. -/
def intToChars (i : Int) : List Char :=
  (toString i).toList

/-- `IMAP::send_command`: prepend the next tag, append CRLF, queue the bytes
and advance the command counter.  The C++ then calls `try_write`, which only
drains `m_send_buf` through TLS; that drain is the separate `try_write`
step below and never affects parsing or session state. -/
def send_command (s : ConnState) (cmd : List Char) : ConnState :=
  { s with
    sendBuf := s.sendBuf ++ intToChars s.nextCmdId ++ ' ' :: cmd ++ ['\r', '\n'],
    nextCmdId := s.nextCmdId + 1 }

/-- `IMAP::fetch_message`: queue `FETCH <id> BODY[TEXT]` and enter
`S_FETCH_BODY`, with no precondition on the current state. -/
def fetch_message (s : ConnState) (id : Int) : ConnState :=
  { send_command s ("FETCH ".toList ++ intToChars id ++ " BODY[TEXT]".toList)
    with state := .sFetchBody }

/-- The error codes `SSL_get_error` can report to `ssl_handle_error`. -/
inductive SSLError where
  | wantRead
  | wantWrite
  | syscall (msg : String)
  | other
  deriving DecidableEq, Repr

/-- `IMAP::ssl_handle_error`: want-read tears the write watch down when
nothing is pending, want-write installs it, anything else is fatal. -/
def ssl_handle_error (s : ConnState) (e : SSLError) : Except String ConnState :=
  match e with
  | .wantRead =>
      .ok (if s.sendBuf.isEmpty then { s with writeWatch := false } else s)
  | .wantWrite => .ok { s with writeWatch := true }
  | .syscall m => .error ("SSL: syscall error (" ++ m ++ ")")
  | .other => .error "SSL: an error occured"

/-- `IMAP::try_write`: `written` is the `SSL_write` return value and `e` the
error code it reports when `written ≤ 0`.  On success the written prefix is
dropped and the write watch is installed exactly when bytes remain. -/
def try_write (s : ConnState) (written : Int) (e : SSLError) :
    Except String ConnState :=
  if written ≤ 0 then ssl_handle_error s e
  else
    let s1 := { s with sendBuf := s.sendBuf.drop written.toNat }
    if s1.sendBuf.isEmpty then .ok { s1 with writeWatch := false }
    else .ok { s1 with writeWatch := true }

/-- Observable deliveries from one processed line: `add_message` for a
summary envelope, `show_message` for a body, and the unconditional
`printf` pair that reports a caught parse error with the raw line. -/
inductive Output where
  | envelope (e : Envelope)
  | body (b : List Char)
  | parseLog (msg : String) (line : List Char)
  deriving DecidableEq, Repr

/-- Result of handing one line to the session automaton: continue with a new
state and deliveries, retry later (`imap_need_more` reached the framing
loop), or an exception escaping `process_recv` entirely, carrying the object
state at the throw point. -/
inductive LineResult where
  | ok (s : ConnState) (outs : List Output)
  | more
  | fatal (msg : String) (s : ConnState)
  deriving DecidableEq, Repr

/-- Whether a `LineResult` continues the connection. -/
def LineResult.isContinue : LineResult → Bool
  | .ok _ _ => true
  | _ => false

/-- The `switch (m_state)` body of `IMAP::process_recv`, entered with the
cursor `p` positioned after the leading `*` (untagged) or after the checked
tag (tagged); `line` is the whole line for the error log. -/
def handle_state (s : ConnState) (untagged : Bool) (p : List Char)
    (line : List Char) : LineResult :=
  match s.state with
  | .sIdle => .ok s []
  | .sConnecting =>
      .ok { send_command s ("LOGIN ".toList ++ s.user ++ ' ' :: s.pw)
            with state := .sLogin } []
  | .sLogin =>
      if untagged then .ok s []
      else if (readWord p).1 = "OK".toList then
        .ok { send_command s "SELECT INBOX".toList with state := .sSelect } []
      else .fatal "Unable to log in" s
  | .sSelect =>
      if untagged then .ok s []
      else if (readWord p).1 = "OK".toList then
        .ok { send_command s "FETCH 1:* full".toList with state := .sFetch } []
      else .fatal "Unable to select" s
  | .sFetch =>
      if untagged then
        match readInt p with
        | none => .fatal "Invalid message ID" s
        | some (mid, p2) =>
          match parse_astring p2 with
          | .more => .more
          | .err m => .fatal m s
          | .ok _status p3 =>
            match parse_fetch_reply p3 with
            | .more => .more
            | .err m => .ok s [.parseLog m line]
            | .ok (env, _diags) _rest => .ok s [.envelope { env with id := mid }]
      else if (readWord p).1 = "OK".toList then .ok { s with state := .sIdle } []
      else .fatal "Unable to fetch" s
  | .sFetchBody =>
      if untagged then
        match readInt p with
        | none => .fatal "Invalid message ID" s
        | some (_mid, p2) =>
          match parse_astring p2 with
          | .more => .more
          | .err m => .fatal m s
          | .ok _status p3 =>
            match parse_body_reply p3 with
            | .more => .more
            | .err m => .fatal m s
            | .ok body _rest => .ok s [.body body]
      else if (readWord p).1 = "OK".toList then .ok { s with state := .sIdle } []
      else .fatal "Unable to fetch" s

/-- One iteration body of the `process_recv` loop: classify the line as
untagged or tagged, check the tag against the expected reply id (a mismatch
raises `imap_parse_error` before any field of the object is written), then
run the state switch. -/
def handle_line (s : ConnState) (line : List Char) : LineResult :=
  match skipTok '*' line with
  | (true, p) => handle_state s true p line
  | (false, p) =>
    match readInt p with
    | none => .fatal "Invalid reply ID" s
    | some (id, p2) =>
      if id = s.nextReplyId then
        handle_state { s with nextReplyId := s.nextReplyId + 1 } false p2 line
      else .fatal "Invalid reply ID" s

/-- Position of the first adjacent `"\r\n"` pair of a list, if any. -/
def findPair : List Char → Option Nat
  | c1 :: c2 :: rest =>
      if c1 = '\r' && c2 = '\n' then some 0
      else (findPair (c2 :: rest)).map (fun k => k + 1)
  | _ => none
termination_by l => l.length
decreasing_by simp

/-- A CRLF pair sits at position `j` of `buf`. -/
def isCRLFAt (buf : List Char) (j : Nat) : Prop :=
  buf[j]? = some '\r' ∧ buf[j + 1]? = some '\n'

instance (buf : List Char) (j : Nat) : Decidable (isCRLFAt buf j) := by
  unfold isCRLFAt
  infer_instance

/-- `buf.find("\r\n", i)` from `IMAP::process_recv`, `none` for `npos`. -/
def findCRLF (buf : List Char) (i : Nat) : Option Nat :=
  (findPair (buf.drop i)).map (fun k => i + k)

theorem isCRLFAt_length {buf : List Char} {j : Nat} (h : isCRLFAt buf j) :
    j + 2 ≤ buf.length := by
  obtain ⟨hn, _⟩ := List.getElem?_eq_some.mp h.2
  omega

theorem isCRLFAt_cons_succ {c : Char} {t : List Char} {j : Nat} :
    isCRLFAt (c :: t) (j + 1) ↔ isCRLFAt t j := by
  simp [isCRLFAt]

theorem isCRLFAt_cons2_zero {c1 c2 : Char} {t : List Char} :
    isCRLFAt (c1 :: c2 :: t) 0 ↔ c1 = '\r' ∧ c2 = '\n' := by
  simp [isCRLFAt]

theorem findPair_some_iff {l : List Char} {k : Nat} :
    findPair l = some k ↔ isCRLFAt l k ∧ ∀ k', k' < k → ¬ isCRLFAt l k' := by
  induction l using findPair.induct generalizing k with
  | case1 c1 c2 rest hpair =>
      have h0 : findPair (c1 :: c2 :: rest) = some 0 := by
        simp [findPair, hpair]
      rw [h0]
      simp only [Bool.and_eq_true, decide_eq_true_eq] at hpair
      constructor
      · intro h
        injection h with h
        subst h
        exact ⟨isCRLFAt_cons2_zero.mpr ⟨hpair.1, hpair.2⟩, fun k' hk' _ => by omega⟩
      · rintro ⟨hat, hmin⟩
        rcases Nat.eq_zero_or_pos k with rfl | hk
        · rfl
        · exact absurd (isCRLFAt_cons2_zero.mpr ⟨hpair.1, hpair.2⟩) (hmin 0 hk)
  | case2 c1 c2 rest hpair ih =>
      have hnp : ¬ (c1 = '\r' ∧ c2 = '\n') := by simpa using hpair
      have hstep : findPair (c1 :: c2 :: rest) =
          (findPair (c2 :: rest)).map (fun k => k + 1) := by
        simp only [findPair]
        rw [if_neg (by simpa using hpair)]
      rw [hstep]
      cases k with
      | zero =>
          constructor
          · intro h
            rcases Option.map_eq_some'.mp h with ⟨k0, _, hk0⟩
            omega
          · rintro ⟨hat, _⟩
            exact absurd (isCRLFAt_cons2_zero.mp hat) hnp
      | succ k2 =>
          constructor
          · intro h
            rcases Option.map_eq_some'.mp h with ⟨k0, hk0, heq⟩
            have hk0k : k0 = k2 := by omega
            subst hk0k
            rcases ih.mp hk0 with ⟨hat, hmin⟩
            refine ⟨isCRLFAt_cons_succ.mpr hat, ?_⟩
            intro k' hk' hat'
            cases k' with
            | zero => exact absurd (isCRLFAt_cons2_zero.mp hat') hnp
            | succ k3 => exact hmin k3 (by omega) (isCRLFAt_cons_succ.mp hat')
          · rintro ⟨hat, hmin⟩
            have h1 : findPair (c2 :: rest) = some k2 := by
              refine ih.mpr ⟨isCRLFAt_cons_succ.mp hat, ?_⟩
              intro k' hk' hat'
              exact hmin (k' + 1) (by omega) (isCRLFAt_cons_succ.mpr hat')
            simp [h1]
  | case3 l hno =>
      have hlen : l.length ≤ 1 := by
        match l, hno with
        | [], _ => simp
        | [c], _ => simp
        | a :: b :: t, hno => exact (hno a b t rfl).elim
      have hfp : findPair l = none := by
        match l, hno with
        | [], _ => simp [findPair]
        | [c], _ => simp [findPair]
        | a :: b :: t, hno => exact (hno a b t rfl).elim
      rw [hfp]
      constructor
      · intro h
        cases h
      · rintro ⟨hat, _⟩
        have := isCRLFAt_length hat
        omega

theorem findPair_isSome_of_crlf {l : List Char} {k : Nat} (h : isCRLFAt l k) :
    (findPair l).isSome := by
  induction l using findPair.induct generalizing k with
  | case1 c1 c2 rest hpair => simp [findPair, hpair]
  | case2 c1 c2 rest hpair ih =>
      have hnp : ¬ (c1 = '\r' ∧ c2 = '\n') := by simpa using hpair
      have hstep : findPair (c1 :: c2 :: rest) =
          (findPair (c2 :: rest)).map (fun k => k + 1) := by
        simp only [findPair]
        rw [if_neg (by simpa using hpair)]
      rw [hstep]
      cases k with
      | zero => exact absurd (isCRLFAt_cons2_zero.mp h) hnp
      | succ k2 =>
          have := ih (isCRLFAt_cons_succ.mp h)
          simpa using this
  | case3 l hno =>
      have hlen : l.length ≤ 1 := by
        match l, hno with
        | [], _ => simp
        | [c], _ => simp
        | a :: b :: t, hno => exact (hno a b t rfl).elim
      have := isCRLFAt_length h
      omega

theorem findPair_none_iff {l : List Char} :
    findPair l = none ↔ ∀ k, ¬ isCRLFAt l k := by
  constructor
  · intro h k hat
    have := findPair_isSome_of_crlf hat
    simp [h] at this
  · intro h
    rcases hfp : findPair l with _ | k0
    · rfl
    · exact absurd (findPair_some_iff.mp hfp).1 (h k0)

theorem isCRLFAt_drop {buf : List Char} {i k : Nat} :
    isCRLFAt (buf.drop i) k ↔ isCRLFAt buf (i + k) := by
  unfold isCRLFAt
  rw [List.getElem?_drop, List.getElem?_drop,
      show i + (k + 1) = i + k + 1 from by omega]

theorem isCRLFAt_append_left {buf ext : List Char} {j : Nat}
    (h : j + 2 ≤ buf.length) : isCRLFAt (buf ++ ext) j ↔ isCRLFAt buf j := by
  unfold isCRLFAt
  rw [List.getElem?_append, List.getElem?_append, if_pos (by omega),
      if_pos (by omega)]

theorem findCRLF_some_spec {buf : List Char} {i j : Nat}
    (h : findCRLF buf i = some j) :
    i ≤ j ∧ j + 2 ≤ buf.length ∧ isCRLFAt buf j ∧
      ∀ k, i ≤ k → k < j → ¬ isCRLFAt buf k := by
  unfold findCRLF at h
  rcases Option.map_eq_some'.mp h with ⟨k0, hk0, rfl⟩
  rcases findPair_some_iff.mp hk0 with ⟨hat, hmin⟩
  have hat2 := isCRLFAt_drop.mp hat
  refine ⟨by omega, isCRLFAt_length hat2, hat2, ?_⟩
  intro k hik hkj hatk
  refine hmin (k - i) (by omega) ?_
  rw [isCRLFAt_drop, show i + (k - i) = k from by omega]
  exact hatk

theorem findCRLF_none_spec {buf : List Char} {i : Nat} :
    findCRLF buf i = none ↔ ∀ k, i ≤ k → ¬ isCRLFAt buf k := by
  unfold findCRLF
  rw [Option.map_eq_none', findPair_none_iff]
  constructor
  · intro h k hik hat
    refine h (k - i) ?_
    rw [isCRLFAt_drop, show i + (k - i) = k from by omega]
    exact hat
  · intro h k hat
    exact h (i + k) (by omega) (isCRLFAt_drop.mp hat)

theorem findCRLF_intro {buf : List Char} {i j : Nat} (hij : i ≤ j)
    (hat : isCRLFAt buf j) (hmin : ∀ k, i ≤ k → k < j → ¬ isCRLFAt buf k) :
    findCRLF buf i = some j := by
  unfold findCRLF
  have h1 : findPair (buf.drop i) = some (j - i) := by
    refine findPair_some_iff.mpr ⟨?_, ?_⟩
    · rw [isCRLFAt_drop, show i + (j - i) = j from by omega]
      exact hat
    · intro k' hk' hat'
      exact hmin (i + k') (by omega) (by omega) (isCRLFAt_drop.mp hat')
  rw [h1]
  simp
  omega

theorem findCRLF_append_of_some {buf : List Char} {i j : Nat}
    (ext : List Char) (h : findCRLF buf i = some j) :
    findCRLF (buf ++ ext) i = some j := by
  rcases findCRLF_some_spec h with ⟨hij, hlen, hat, hmin⟩
  refine findCRLF_intro hij ((isCRLFAt_append_left hlen).mpr hat) ?_
  intro k hik hkj hat'
  have hk2 : k + 2 ≤ buf.length := by omega
  exact hmin k hik hkj ((isCRLFAt_append_left hk2).mp hat')

theorem findCRLF_drop {buf : List Char} {d i : Nat} (hd : d ≤ i) :
    findCRLF (buf.drop d) (i - d) = (findCRLF buf i).map (fun j => j - d) := by
  unfold findCRLF
  rw [List.drop_drop, show d + (i - d) = i from by omega]
  rcases findPair (buf.drop i) with _ | k
  · rfl
  · simp
    omega

/-- Result of one `process_recv` call over the whole receive buffer:
`consumed` is the returned `begin` offset, `outs` the sequence of
deliveries, and `scanned` the final value of the scan index `i` (the C++
does not return it; it is recorded to state the incremental-feeding
lemmas).  `fatal` is an exception escaping `process_recv`, carrying the
deliveries already made and the object state at the throw. -/
inductive ProcResult where
  | ok (consumed : Nat) (s : ConnState) (outs : List Output) (scanned : Nat)
  | fatal (msg : String) (s : ConnState) (outs : List Output)
  deriving DecidableEq, Repr

/-- Prepend earlier deliveries to a loop result. -/
def ProcResult.withOuts (o : List Output) : ProcResult → ProcResult
  | .ok c s outs k => .ok c s (o ++ outs) k
  | .fatal m s outs => .fatal m s (o ++ outs)

/-- The `while (1) try { ... } catch (imap_need_more)` loop of
`IMAP::process_recv`.  `bg` models `begin` (start of the line being
assembled) and `i` the scan index.  A line runs from `bg` to the next CRLF
at `j`; on `imap_need_more` the buffer up to the line start is kept (`bg`
unchanged) and scanning resumes after that CRLF; on success both move past
the line; any other exception aborts processing at once. -/
def process_loop (s : ConnState) (buf : List Char) (bg i : Nat) : ProcResult :=
  match h : findCRLF buf i with
  | none => .ok bg s [] i
  | some j =>
    match handle_line s ((buf.drop bg).take (j - bg)) with
    | .more => process_loop s buf bg (j + 2)
    | .fatal m s1 => .fatal m s1 []
    | .ok s1 outs => (process_loop s1 buf (j + 2) (j + 2)).withOuts outs
termination_by buf.length - i
decreasing_by
  all_goals
    (have hs := findCRLF_some_spec h
     omega)

/-- `IMAP::process_recv` on the whole receive buffer. -/
def process_recv (s : ConnState) (buf : List Char) : ProcResult :=
  process_loop s buf 0 0

/-- Result of feeding a sequence of reads: final state, remaining receive
buffer and deliveries, or the fatal error that interrupted the feed. -/
inductive FeedResult where
  | ok (s : ConnState) (buf : List Char) (outs : List Output)
  | fatal (msg : String) (s : ConnState) (outs : List Output)
  deriving DecidableEq, Repr

/-- Prepend earlier deliveries to a feed result. -/
def FeedResult.withOuts (o : List Output) : FeedResult → FeedResult
  | .ok s buf outs => .ok s buf (o ++ outs)
  | .fatal m s outs => .fatal m s (o ++ outs)

/-- The `IMAP::try_read` cycle: append each arriving chunk to the receive
buffer, run `process_recv`, erase the consumed prefix, repeat. -/
def feed_chunks (s : ConnState) (buf : List Char) :
    List (List Char) → FeedResult
  | [] => .ok s buf []
  | c :: cs =>
    match process_recv s (buf ++ c) with
    | .fatal m s1 outs => .fatal m s1 outs
    | .ok consumed s1 outs _ =>
        (feed_chunks s1 ((buf ++ c).drop consumed) cs).withOuts outs

theorem process_loop_none {s : ConnState} {buf : List Char} {bg i : Nat}
    (h : findCRLF buf i = none) : process_loop s buf bg i = .ok bg s [] i := by
  rw [process_loop]
  split
  · rfl
  · rename_i j h'
    rw [h] at h'
    cases h'

theorem process_loop_more {s : ConnState} {buf : List Char} {bg i j : Nat}
    (h : findCRLF buf i = some j)
    (hl : handle_line s ((buf.drop bg).take (j - bg)) = .more) :
    process_loop s buf bg i = process_loop s buf bg (j + 2) := by
  rw [process_loop]
  split
  · rename_i h'
    rw [h] at h'
    cases h'
  · rename_i j' h'
    rw [h] at h'
    injection h' with h''
    subst h''
    rw [hl]

theorem process_loop_fatal {s s1 : ConnState} {buf : List Char} {bg i j : Nat}
    {m : String} (h : findCRLF buf i = some j)
    (hl : handle_line s ((buf.drop bg).take (j - bg)) = .fatal m s1) :
    process_loop s buf bg i = .fatal m s1 [] := by
  rw [process_loop]
  split
  · rename_i h'
    rw [h] at h'
    cases h'
  · rename_i j' h'
    rw [h] at h'
    injection h' with h''
    subst h''
    rw [hl]

theorem process_loop_cont {s s1 : ConnState} {buf : List Char} {bg i j : Nat}
    {outs : List Output} (h : findCRLF buf i = some j)
    (hl : handle_line s ((buf.drop bg).take (j - bg)) = .ok s1 outs) :
    process_loop s buf bg i =
      (process_loop s1 buf (j + 2) (j + 2)).withOuts outs := by
  rw [process_loop]
  split
  · rename_i h'
    rw [h] at h'
    cases h'
  · rename_i j' h'
    rw [h] at h'
    injection h' with h''
    subst h''
    rw [hl]

/-- Shift a loop result to positions of a buffer with `d` more leading
(already consumed) characters. -/
def ProcResult.shiftUp (d : Nat) : ProcResult → ProcResult
  | .ok c s outs k => .ok (c + d) s outs (k + d)
  | .fatal m s outs => .fatal m s outs

theorem ProcResult.withOuts_nil (r : ProcResult) : r.withOuts [] = r := by
  cases r <;> simp [ProcResult.withOuts]

theorem ProcResult.withOuts_withOuts (o1 o2 : List Output) (r : ProcResult) :
    (r.withOuts o2).withOuts o1 = r.withOuts (o1 ++ o2) := by
  cases r <;> simp [ProcResult.withOuts]

theorem ProcResult.shiftUp_withOuts (d : Nat) (o : List Output)
    (r : ProcResult) : (r.withOuts o).shiftUp d = (r.shiftUp d).withOuts o := by
  cases r <;> simp [ProcResult.withOuts, ProcResult.shiftUp]

theorem slice_append {buf ext : List Char} {bg j : Nat} (hbg : bg ≤ j)
    (hj : j ≤ buf.length) :
    ((buf ++ ext).drop bg).take (j - bg) = (buf.drop bg).take (j - bg) := by
  rw [List.drop_append_eq_append_drop, show bg - buf.length = 0 from by omega,
      List.drop_zero, List.take_append_eq_append_take]
  have hlen : (buf.drop bg).length = buf.length - bg := by simp
  rw [show j - bg - (buf.drop bg).length = 0 from by rw [hlen]; omega]
  simp

theorem slice_drop {buf : List Char} {d bg j : Nat} (hd : d ≤ bg) :
    ((buf.drop d).drop (bg - d)).take ((j - d) - (bg - d)) =
      (buf.drop bg).take (j - bg) := by
  rw [List.drop_drop, show d + (bg - d) = bg from by omega]
  congr 1
  omega

/-- Dropping an already consumed prefix of length `d ≤ bg` only shifts the
positions a `process_recv` loop reports; nothing else changes. -/
theorem process_loop_shift (s : ConnState) (buf : List Char) (bg i d : Nat)
    (hd : d ≤ bg) (hbi : bg ≤ i) :
    process_loop s buf bg i =
      (process_loop s (buf.drop d) (bg - d) (i - d)).shiftUp d := by
  induction s, buf, bg, i using process_loop.induct with
  | case1 s buf bg i hfind =>
      have hfind2 : findCRLF (buf.drop d) (i - d) = none := by
        rw [findCRLF_drop (by omega), hfind]
        rfl
      rw [process_loop_none hfind, process_loop_none hfind2]
      simp only [ProcResult.shiftUp]
      congr 1 <;> omega
  | case2 s buf bg i j hfind hl ih =>
      rcases findCRLF_some_spec hfind with ⟨hij, hlen, _, _⟩
      have hfind2 : findCRLF (buf.drop d) (i - d) = some (j - d) := by
        rw [findCRLF_drop (by omega), hfind]
        rfl
      have hl2 : handle_line s (((buf.drop d).drop (bg - d)).take
          ((j - d) - (bg - d))) = .more := by
        rw [slice_drop hd]
        exact hl
      rw [process_loop_more hfind hl, process_loop_more hfind2 hl2,
          show (j - d) + 2 = (j + 2) - d from by omega]
      exact ih (by omega) (by omega)
  | case3 s buf bg i j hfind m s1 hl =>
      rcases findCRLF_some_spec hfind with ⟨hij, hlen, _, _⟩
      have hfind2 : findCRLF (buf.drop d) (i - d) = some (j - d) := by
        rw [findCRLF_drop (by omega), hfind]
        rfl
      have hl2 : handle_line s (((buf.drop d).drop (bg - d)).take
          ((j - d) - (bg - d))) = .fatal m s1 := by
        rw [slice_drop hd]
        exact hl
      rw [process_loop_fatal hfind hl, process_loop_fatal hfind2 hl2]
      rfl
  | case4 s buf bg i j hfind s1 outs hl ih =>
      rcases findCRLF_some_spec hfind with ⟨hij, hlen, _, _⟩
      have hfind2 : findCRLF (buf.drop d) (i - d) = some (j - d) := by
        rw [findCRLF_drop (by omega), hfind]
        rfl
      have hl2 : handle_line s (((buf.drop d).drop (bg - d)).take
          ((j - d) - (bg - d))) = .ok s1 outs := by
        rw [slice_drop hd]
        exact hl
      rw [process_loop_cont hfind hl, process_loop_cont hfind2 hl2,
          show (j - d) + 2 = (j + 2) - d from by omega,
          ih (by omega) (by omega), ProcResult.shiftUp_withOuts]

/-- Erase the `scanned` ghost component, keeping exactly what the C++
`process_recv` reports: consumed offset, object state and deliveries. -/
def ProcResult.scrub : ProcResult → ProcResult
  | .ok c s outs _ => .ok c s outs 0
  | .fatal m s outs => .fatal m s outs

/-- Bounds and shape of a successful loop run: the consumed offset never
precedes the entry `bg`, scanning ends at or after the entry `i` with no
CRLF left, and the final scan index is the entry one or sits two past a
CRLF. -/
theorem process_loop_ok_spec {s s1 : ConnState} {buf : List Char}
    {bg i c k : Nat} {o : List Output}
    (hbi : bg ≤ i) (hil : i ≤ buf.length)
    (h : process_loop s buf bg i = .ok c s1 o k) :
    bg ≤ c ∧ c ≤ k ∧ i ≤ k ∧ k ≤ buf.length ∧ findCRLF buf k = none ∧
      (k = i ∨ (2 ≤ k ∧ isCRLFAt buf (k - 2))) := by
  induction s, buf, bg, i using process_loop.induct generalizing c s1 o k with
  | case1 s buf bg i hfind =>
      rw [process_loop_none hfind] at h
      injection h with h1 h2 h3 h4
      subst h1; subst h2; subst h4
      exact ⟨le_refl _, hbi, le_refl _, hil, hfind, Or.inl rfl⟩
  | case2 s buf bg i j hfind hl ih =>
      rcases findCRLF_some_spec hfind with ⟨hij, hlen, hat, _⟩
      rw [process_loop_more hfind hl] at h
      rcases ih (by omega) (by omega) h with ⟨h1, h2, h3, h4, h5, h6⟩
      refine ⟨h1, h2, by omega, h4, h5, ?_⟩
      rcases h6 with rfl | h6
      · exact Or.inr ⟨by omega, by simpa using hat⟩
      · exact Or.inr h6
  | case3 s buf bg i j hfind m s2 hl =>
      rw [process_loop_fatal hfind hl] at h
      cases h
  | case4 s buf bg i j hfind s2 outs hl ih =>
      rcases findCRLF_some_spec hfind with ⟨hij, hlen, hat, _⟩
      rw [process_loop_cont hfind hl] at h
      rcases hr : process_loop s2 buf (j + 2) (j + 2) with
        ⟨c2, s3, o2, k2⟩ | ⟨m3, s3, o2⟩
      · rw [hr] at h
        simp only [ProcResult.withOuts] at h
        injection h with h1 h2 h3 h4
        subst h1; subst h2; subst h4
        rcases ih (le_refl _) (by omega) hr with ⟨h1, h2, h3, h4, h5, h6⟩
        refine ⟨by omega, h2, by omega, h4, h5, ?_⟩
        rcases h6 with rfl | h6
        · exact Or.inr ⟨by omega, by simpa using hat⟩
        · exact Or.inr h6
      · rw [hr] at h
        simp only [ProcResult.withOuts] at h
        cases h

/-- Appending bytes to the buffer does not disturb the processed prefix: a
run over `buf` continues on `buf ++ ext` exactly where it stopped, with the
same state, deliveries and positions. -/
theorem process_loop_append_ok {s s1 : ConnState} {buf : List Char}
    {bg i c k : Nat} {o : List Output} (ext : List Char)
    (hbi : bg ≤ i)
    (h : process_loop s buf bg i = .ok c s1 o k) :
    process_loop s (buf ++ ext) bg i =
      (process_loop s1 (buf ++ ext) c k).withOuts o := by
  induction s, buf, bg, i using process_loop.induct generalizing c s1 o k with
  | case1 s buf bg i hfind =>
      rw [process_loop_none hfind] at h
      injection h with h1 h2 h3 h4
      subst h1; subst h2; subst h3; subst h4
      rw [ProcResult.withOuts_nil]
  | case2 s buf bg i j hfind hl ih =>
      rcases findCRLF_some_spec hfind with ⟨hij, hlen, _, _⟩
      have hfind2 := findCRLF_append_of_some ext hfind
      have hl2 : handle_line s (((buf ++ ext).drop bg).take (j - bg)) =
          .more := by
        rw [slice_append (by omega) (by omega)]
        exact hl
      rw [process_loop_more hfind hl] at h
      rw [process_loop_more hfind2 hl2]
      exact ih (by omega) h
  | case3 s buf bg i j hfind m s2 hl =>
      rw [process_loop_fatal hfind hl] at h
      cases h
  | case4 s buf bg i j hfind s2 outs hl ih =>
      rcases findCRLF_some_spec hfind with ⟨hij, hlen, _, _⟩
      have hfind2 := findCRLF_append_of_some ext hfind
      have hl2 : handle_line s (((buf ++ ext).drop bg).take (j - bg)) =
          .ok s2 outs := by
        rw [slice_append (by omega) (by omega)]
        exact hl
      rw [process_loop_cont hfind hl] at h
      rw [process_loop_cont hfind2 hl2]
      rcases hr : process_loop s2 buf (j + 2) (j + 2) with
        ⟨c2, s3, o2, k2⟩ | ⟨m3, s3, o2⟩
      · rw [hr] at h
        simp only [ProcResult.withOuts] at h
        injection h with h1 h2 h3 h4
        subst h1; subst h2; subst h3; subst h4
        rw [ih (le_refl _) hr, ProcResult.withOuts_withOuts]
      · rw [hr] at h
        simp only [ProcResult.withOuts] at h
        cases h

/-- A fatal error raised while processing `buf` is raised identically on
any extension of `buf`. -/
theorem process_loop_append_fatal {s s1 : ConnState} {buf : List Char}
    {bg i : Nat} {m : String} {o : List Output} (ext : List Char)
    (hbi : bg ≤ i)
    (h : process_loop s buf bg i = .fatal m s1 o) :
    process_loop s (buf ++ ext) bg i = .fatal m s1 o := by
  induction s, buf, bg, i using process_loop.induct generalizing m s1 o with
  | case1 s buf bg i hfind =>
      rw [process_loop_none hfind] at h
      cases h
  | case2 s buf bg i j hfind hl ih =>
      rcases findCRLF_some_spec hfind with ⟨hij, hlen, _, _⟩
      have hfind2 := findCRLF_append_of_some ext hfind
      have hl2 : handle_line s (((buf ++ ext).drop bg).take (j - bg)) =
          .more := by
        rw [slice_append (by omega) (by omega)]
        exact hl
      rw [process_loop_more hfind hl] at h
      rw [process_loop_more hfind2 hl2]
      exact ih (by omega) h
  | case3 s buf bg i j hfind m2 s2 hl =>
      rcases findCRLF_some_spec hfind with ⟨hij, hlen, _, _⟩
      have hfind2 := findCRLF_append_of_some ext hfind
      have hl2 : handle_line s (((buf ++ ext).drop bg).take (j - bg)) =
          .fatal m2 s2 := by
        rw [slice_append (by omega) (by omega)]
        exact hl
      rw [process_loop_fatal hfind hl] at h
      rw [process_loop_fatal hfind2 hl2]
      exact h
  | case4 s buf bg i j hfind s2 outs hl ih =>
      rcases findCRLF_some_spec hfind with ⟨hij, hlen, _, _⟩
      have hfind2 := findCRLF_append_of_some ext hfind
      have hl2 : handle_line s (((buf ++ ext).drop bg).take (j - bg)) =
          .ok s2 outs := by
        rw [slice_append (by omega) (by omega)]
        exact hl
      rw [process_loop_cont hfind hl] at h
      rw [process_loop_cont hfind2 hl2]
      rcases hr : process_loop s2 buf (j + 2) (j + 2) with
        ⟨c2, s3, o2, k2⟩ | ⟨m3, s3, o2⟩
      · rw [hr] at h
        simp only [ProcResult.withOuts] at h
        cases h
      · rw [hr] at h
        simp only [ProcResult.withOuts] at h
        injection h with h1 h2 h3
        subst h1; subst h2; subst h3
        rw [ih (le_refl _) hr]
        rfl

/-- During the final, stuck stretch of a successful run, every complete
line attempt that starts at the returned consumed offset raised needs-more:
this is what lets the erase-and-retry cycle replay those attempts without
observable effect. -/
theorem process_loop_ok_more_inv {s s1 : ConnState} {buf : List Char}
    {bg i c k : Nat} {o : List Output}
    (hbi : bg ≤ i)
    (hpre : ∀ j, isCRLFAt buf j → bg ≤ j → j + 2 ≤ i →
      handle_line s ((buf.drop bg).take (j - bg)) = .more)
    (hedge : i = bg ∨ (2 ≤ i ∧ isCRLFAt buf (i - 2)))
    (h : process_loop s buf bg i = .ok c s1 o k) :
    ∀ j, isCRLFAt buf j → c ≤ j → j + 2 ≤ k →
      handle_line s1 ((buf.drop c).take (j - c)) = .more := by
  induction s, buf, bg, i using process_loop.induct generalizing c s1 o k with
  | case1 s buf bg i hfind =>
      rw [process_loop_none hfind] at h
      injection h with h1 h2 h3 h4
      subst h1; subst h2; subst h4
      exact hpre
  | case2 s buf bg i j0 hfind hl ih =>
      rcases findCRLF_some_spec hfind with ⟨hij, hlen, hat, hmin⟩
      rw [process_loop_more hfind hl] at h
      refine ih (by omega) ?_ ?_ h
      · intro j hatj hbgj hj2
        rcases Nat.lt_or_ge j j0 with hjlt | hjge
        · rcases Nat.lt_or_ge j i with hji | hji
          · rcases Nat.lt_or_ge (j + 1) i with hc | hc
            · exact hpre j hatj hbgj (by omega)
            · have hji2 : j = i - 1 := by omega
              rcases hedge with rfl | ⟨hi2, hatat⟩
              · omega
              · exfalso
                have hnl : buf[i - 1]? = some '\n' := by
                  have h2 := hatat.2
                  rwa [show i - 2 + 1 = i - 1 from by omega] at h2
                have hrr : buf[i - 1]? = some '\r' := by
                  have h1 := hatj.1
                  rwa [hji2] at h1
                rw [hnl] at hrr
                injection hrr with hrr
                exact absurd hrr (by decide)
          · exact absurd hatj (hmin j hji hjlt)
        · have hjj : j = j0 := by omega
          subst hjj
          exact hl
      · exact Or.inr ⟨by omega, by simpa using hat⟩
  | case3 s buf bg i j0 hfind m s2 hl =>
      rw [process_loop_fatal hfind hl] at h
      cases h
  | case4 s buf bg i j0 hfind s2 outs hl ih =>
      rw [process_loop_cont hfind hl] at h
      rcases hr : process_loop s2 buf (j0 + 2) (j0 + 2) with
        ⟨c2, s3, o2, k2⟩ | ⟨m3, s3, o2⟩
      · rw [hr] at h
        simp only [ProcResult.withOuts] at h
        injection h with h1 h2 h3 h4
        subst h1; subst h2; subst h4
        refine ih (le_refl _) ?_ (Or.inl rfl) hr
        intro j hatj hj1 hj2
        omega
      · rw [hr] at h
        simp only [ProcResult.withOuts] at h
        cases h

/-- Restarting the loop scan earlier (at `i0` instead of `i`) changes
nothing the C++ reports, provided every complete line attempt between the
two scan positions raises needs-more: the loop merely replays those
attempts.  This is exactly the situation after `try_read` erases a consumed
prefix and re-enters `process_recv` at scan position zero. -/
theorem process_loop_catchup {s : ConnState} {buf : List Char}
    {bg i0 i : Nat}
    (hb0 : bg ≤ i0) (h0i : i0 ≤ i) (hil : i ≤ buf.length)
    (hinv : ∀ j, isCRLFAt buf j → i0 ≤ j → j + 2 ≤ i →
      handle_line s ((buf.drop bg).take (j - bg)) = .more)
    (hedge : i = i0 ∨ ¬ isCRLFAt buf (i - 1)) :
    (process_loop s buf bg i0).scrub = (process_loop s buf bg i).scrub := by
  rcases Nat.eq_or_lt_of_le h0i with rfl | hlt
  · rfl
  rcases hfind : findCRLF buf i0 with _ | j
  · have hfind2 : findCRLF buf i = none := by
      rw [findCRLF_none_spec] at hfind ⊢
      exact fun k hk hatk => hfind k (by omega) hatk
    rw [process_loop_none hfind, process_loop_none hfind2]
    rfl
  · rcases findCRLF_some_spec hfind with ⟨hij, hlen, hat, hmin⟩
    rcases Nat.lt_or_ge j i with hji | hji
    · rcases Nat.lt_or_ge (j + 1) i with hj1 | hj1
      · have hl := hinv j hat (by omega) (by omega)
        have hedge2 : i = j + 2 ∨ ¬ isCRLFAt buf (i - 1) := by
          rcases hedge with heq | hne
          · omega
          · exact Or.inr hne
        rw [process_loop_more hfind hl]
        exact process_loop_catchup (by omega) (by omega) hil
          (fun j2 ha hb hc => hinv j2 ha (by omega) hc) hedge2
      · have hjeq : j = i - 1 := by omega
        subst hjeq
        rcases hedge with hcase | hne
        · omega
        · exact absurd hat hne
    · have hfind2 : findCRLF buf i = some j :=
        findCRLF_intro hji hat (fun k hk1 hk2 => hmin k (by omega) hk2)
      rcases hhl : handle_line s ((buf.drop bg).take (j - bg)) with
        ⟨s2, outs⟩ | _ | ⟨m, s2⟩
      · rw [process_loop_cont hfind hhl, process_loop_cont hfind2 hhl]
      · rw [process_loop_more hfind hhl, process_loop_more hfind2 hhl]
      · rw [process_loop_fatal hfind hhl, process_loop_fatal hfind2 hhl]
termination_by i - i0
decreasing_by omega

/-- After a successful `process_recv` run over `B`, erasing the consumed
prefix and rescanning from position zero (with any extension appended)
reports exactly what continuing at the recorded scan position would: the
replayed attempts all raise needs-more. -/
theorem catchup_after_ok {s s1 : ConnState} {B : List Char} {cB kB : Nat}
    {oB : List Output} (ext : List Char)
    (h : process_loop s B 0 0 = .ok cB s1 oB kB) :
    (process_loop s1 ((B.drop cB) ++ ext) 0 0).scrub =
      (process_loop s1 ((B.drop cB) ++ ext) 0 (kB - cB)).scrub := by
  obtain ⟨-, hck, -, hkb, hfin, hsh⟩ :=
    process_loop_ok_spec (le_refl 0) (Nat.zero_le _) h
  have hF := process_loop_ok_more_inv (le_refl 0)
    (fun j hj h1 h2 => absurd h2 (by omega)) (Or.inl rfl) h
  have hdlen : (B.drop cB).length = B.length - cB := by simp
  refine process_loop_catchup (le_refl 0) (Nat.zero_le _) ?_ ?_ ?_
  · simp
    omega
  · intro j hatj h0j hj2
    have hjlen : j + 2 ≤ (B.drop cB).length := by omega
    have hatj2 : isCRLFAt (B.drop cB) j := (isCRLFAt_append_left hjlen).mp hatj
    have hatj3 : isCRLFAt B (cB + j) := isCRLFAt_drop.mp hatj2
    have hmore := hF (cB + j) hatj3 (by omega) (by omega)
    rw [show cB + j - cB = j from by omega] at hmore
    rw [List.drop_zero, Nat.sub_zero, List.take_append_eq_append_take,
        show j - (B.drop cB).length = 0 from by omega, List.take_zero,
        List.append_nil]
    exact hmore
  · rcases hsh with heq | ⟨h2k, hat2⟩
    · left
      omega
    · rcases Nat.eq_or_lt_of_le hck with heq | hck2
      · left
        omega
      · right
        rintro ⟨hr', -⟩
        rw [List.getElem?_append, if_pos (by omega),
            List.getElem?_drop,
            show cB + (kB - cB - 1) = kB - 1 from by omega] at hr'
        have hnl : B[kB - 1]? = some '\n' := by
          have hx := hat2.2
          rwa [show kB - 2 + 1 = kB - 1 from by omega] at hx
        rw [hnl] at hr'
        injection hr' with hr'
        exact absurd hr' (by decide)

/-- Package a `process_recv` result the way `try_read` consumes it: the
remaining buffer after erasing the consumed prefix, with final state and
deliveries. -/
def run_result (stream : List Char) : ProcResult → FeedResult
  | .ok c s1 outs _ => .ok s1 (stream.drop c) outs
  | .fatal m s1 outs => .fatal m s1 outs

/-- Processing an entire byte stream delivered in a single read. -/
def one_shot (s : ConnState) (stream : List Char) : FeedResult :=
  run_result stream (process_recv s stream)

theorem run_result_congr_scrub {stream : List Char} {r1 r2 : ProcResult}
    (h : r1.scrub = r2.scrub) : run_result stream r1 = run_result stream r2 := by
  cases r1 <;> cases r2 <;>
    simp [ProcResult.scrub] at h <;>
    simp [run_result, h]

theorem run_result_withOuts (stream : List Char) (o : List Output)
    (r : ProcResult) :
    run_result stream (r.withOuts o) = (run_result stream r).withOuts o := by
  cases r <;> simp [run_result, ProcResult.withOuts, FeedResult.withOuts]

theorem run_result_shiftUp (stream : List Char) (d : Nat) (r : ProcResult) :
    run_result stream (r.shiftUp d) = run_result (stream.drop d) r := by
  cases r <;>
    simp [run_result, ProcResult.shiftUp, List.drop_drop, Nat.add_comm]

/-- Invariant form of the equivalence: `buf` is a leftover on which a fresh
scan makes no progress (it was fully replayed), and feeding the chunks one
by one equals processing everything that will ever arrive in one read. -/
theorem feed_chunks_eq_one_shot_aux (cs : List (List Char)) :
    ∀ (s : ConnState) (buf : List Char) (kk : Nat),
      process_loop s buf 0 0 = .ok 0 s [] kk →
      feed_chunks s buf cs = one_shot s (buf ++ cs.flatten) := by
  induction cs with
  | nil =>
      intro s buf kk hst
      rw [List.flatten_nil, List.append_nil]
      unfold one_shot process_recv
      rw [hst]
      simp [run_result, feed_chunks]
  | cons c cs' ih =>
      intro s buf kk hst
      rcases hr : process_loop s (buf ++ c) 0 0 with
        ⟨cB, s1, oB, kB⟩ | ⟨m, s1, oB⟩
      · obtain ⟨-, hck, -, hkb, hfin, hsh⟩ :=
          process_loop_ok_spec (le_refl 0) (Nat.zero_le _) hr
        have hfeed : feed_chunks s buf (c :: cs') =
            (feed_chunks s1 ((buf ++ c).drop cB) cs').withOuts oB := by
          simp only [feed_chunks, process_recv, hr]
        -- the loop, resumed on the retained suffix at the recorded scan
        -- position, reports a fresh stuck run
        have halpha : process_loop s1 (buf ++ c) cB kB = .ok cB s1 [] kB :=
          process_loop_none hfin
        have hbeta := process_loop_shift s1 (buf ++ c) cB kB cB (le_refl cB)
          hck
        rw [halpha, Nat.sub_self] at hbeta
        have hgamma : process_loop s1 ((buf ++ c).drop cB) 0 (kB - cB) =
            .ok 0 s1 [] (kB - cB) := by
          rcases hx : process_loop s1 ((buf ++ c).drop cB) 0 (kB - cB) with
            ⟨c2, s2, o2, k2⟩ | ⟨m2, s2, o2⟩
          · rw [hx] at hbeta
            simp only [ProcResult.shiftUp] at hbeta
            injection hbeta with h1 h2 h3 h4
            have hc2 : c2 = 0 := by omega
            have hk2 : k2 = kB - cB := by omega
            rw [hc2, ← h2, ← h3, hk2]
          · rw [hx] at hbeta
            simp only [ProcResult.shiftUp] at hbeta
            cases hbeta
        have hcu0 := catchup_after_ok ([] : List Char) hr
        rw [List.append_nil, hgamma] at hcu0
        have hst2 : ∃ k2, process_loop s1 ((buf ++ c).drop cB) 0 0 =
            .ok 0 s1 [] k2 := by
          rcases hx : process_loop s1 ((buf ++ c).drop cB) 0 0 with
            ⟨c2, s2, o2, k2⟩ | ⟨m2, s2, o2⟩
          · rw [hx] at hcu0
            simp only [ProcResult.scrub] at hcu0
            injection hcu0 with h1 h2 h3 h4
            subst h1; subst h2; subst h3
            exact ⟨k2, rfl⟩
          · rw [hx] at hcu0
            simp only [ProcResult.scrub] at hcu0
            cases hcu0
        obtain ⟨k2, hst2⟩ := hst2
        have hih := ih s1 ((buf ++ c).drop cB) k2 hst2
        -- one-shot side
        have hj2 : buf ++ (c :: cs').flatten = (buf ++ c) ++ cs'.flatten := by
          rw [List.flatten_cons, List.append_assoc]
        have happ := process_loop_append_ok cs'.flatten (le_refl 0) hr
        have hshift2 := process_loop_shift s1 ((buf ++ c) ++ cs'.flatten)
          cB kB cB (le_refl cB) hck
        have hdropeq : ((buf ++ c) ++ cs'.flatten).drop cB =
            (buf ++ c).drop cB ++ cs'.flatten := by
          rw [List.drop_append_eq_append_drop,
              show cB - (buf ++ c).length = 0 from by omega, List.drop_zero]
        rw [Nat.sub_self] at hshift2
        have hcuE := catchup_after_ok cs'.flatten hr
        rw [hfeed, hih, hj2]
        unfold one_shot process_recv
        rw [happ, run_result_withOuts, hshift2, run_result_shiftUp, hdropeq,
            ← run_result_congr_scrub hcuE]
      · have hfeed : feed_chunks s buf (c :: cs') = .fatal m s1 oB := by
          simp only [feed_chunks, process_recv, hr]
        have hj2 : buf ++ (c :: cs').flatten = (buf ++ c) ++ cs'.flatten := by
          rw [List.flatten_cons, List.append_assoc]
        have happ := process_loop_append_fatal cs'.flatten (le_refl 0) hr
        rw [hfeed, hj2]
        unfold one_shot process_recv
        rw [happ]
        rfl

/-- C2: for every input byte stream (in particular any stream containing
`{N}CRLF` literals) and every partition of it into successive socket reads,
the incremental append/process/erase cycle of `try_read` produces the
identical final state, identical remaining buffer and identical sequence of
delivered results (parsed envelopes, bodies and parse-error logs) as
processing the whole stream delivered in one read; a fatal error is also
identical.  Framing is read-boundary-independent. -/
theorem C2_incremental_framing_eq_one_shot (chunks : List (List Char))
    (s : ConnState) : feed_chunks s [] chunks = one_shot s chunks.flatten := by
  have hnil : findCRLF ([] : List Char) 0 = none := by
    refine findCRLF_none_spec.mpr ?_
    intro k _ hat
    have := isCRLFAt_length hat
    simp at this
  have h0 : process_loop s [] 0 0 = .ok 0 s [] 0 := process_loop_none hnil
  have h := feed_chunks_eq_one_shot_aux chunks s [] 0 h0
  simpa using h

theorem skipTok_true_spec {t : Char} {l r : List Char}
    (h : skipTok t l = (true, r)) : l.dropWhile isSpace = t :: r := by
  rcases hd : l.dropWhile isSpace with _ | ⟨c, rest⟩
  · exact absurd h (by simp [skipTok, hd])
  · simp only [skipTok, hd] at h
    split at h
    · rename_i hc
      injection h with h1 h2
      rw [hc, h2]
    · exact absurd h (by simp)

theorem skipTok_false_spec {t : Char} {l r : List Char}
    (h : skipTok t l = (false, r)) : l.dropWhile isSpace = r := by
  rcases hd : l.dropWhile isSpace with _ | ⟨c, rest⟩
  · simp only [skipTok, hd] at h
    injection h
  · simp only [skipTok, hd] at h
    split at h
    · injection h with h1 h2
      exact absurd h1 (by simp)
    · injection h

theorem parse_astring_ne_more (l : List Char) : parse_astring l ≠ .more := by
  unfold parse_astring
  rcases h : l.dropWhile isSpace with _ | ⟨c, rest⟩
  · simp
  · by_cases ha : is_atom c <;> simp [ha]

theorem parse_quoted_ne_more (l : List Char) : parse_quoted l ≠ .more := by
  induction l using parse_quoted.induct <;>
    rw [parse_quoted.eq_def] <;>
    simp_all

/-- The needs-more-input signal originates only in the literal-string
production: whenever `parse_string` raises it, the input (after the skipped
space) begins with the `{` of a literal. -/
theorem parse_string_more_literal {l : List Char} (h : parse_string l = .more) :
    (l.dropWhile isSpace).head? = some '{' := by
  rcases hskip : skipTok '{' l with ⟨b, l1⟩
  cases b
  · exfalso
    simp only [parse_string, hskip] at h
    rcases hq : skipTok '"' l1 with ⟨b2, l2⟩
    cases b2
    · simp only [hq] at h
      rcases ha : parse_astring l2 with _ | _ | _
      · simp only [ha] at h
        split at h <;> cases h
      · simp only [ha] at h
        cases h
      · exact parse_astring_ne_more l2 ha
    · simp only [hq] at h
      exact parse_quoted_ne_more l2 h
  · rw [skipTok_true_spec hskip]
    rfl

/-- When every complete line attempt from the current scan position raises
needs-more, the framing loop returns the start of the pending line: the
line is retained in the buffer, not discarded. -/
theorem process_loop_stuck_of_more (s : ConnState) (buf : List Char)
    (bg i : Nat)
    (h : ∀ j, j < buf.length → isCRLFAt buf j → i ≤ j →
      handle_line s ((buf.drop bg).take (j - bg)) = .more) :
    ∃ k, process_loop s buf bg i = .ok bg s [] k := by
  induction s, buf, bg, i using process_loop.induct with
  | case1 s buf bg i hfind =>
      exact ⟨i, process_loop_none hfind⟩
  | case2 s buf bg i j hfind hl ih =>
      rw [process_loop_more hfind hl]
      refine ih ?_
      intro j2 hj2 hat2 hge2
      rcases findCRLF_some_spec hfind with ⟨hij, hlen, _, _⟩
      exact h j2 hj2 hat2 (by omega)
  | case3 s buf bg i j hfind m s1 hl =>
      rcases findCRLF_some_spec hfind with ⟨hij, hlen, hat, _⟩
      rw [h j (by omega) hat hij] at hl
      cases hl
  | case4 s buf bg i j hfind s1 outs hl ih =>
      rcases findCRLF_some_spec hfind with ⟨hij, hlen, hat, _⟩
      rw [h j (by omega) hat hij] at hl
      cases hl

/-- The send buffer contents produced by a sequence of `send_command`
calls: each command is prefixed by the consecutive tag, starting at `k`. -/
def tagged_cmds (k : Int) : List (List Char) → List Char
  | [] => []
  | c :: cs => (intToChars k ++ ' ' :: c ++ ['\r', '\n']) ++ tagged_cmds (k + 1) cs

theorem sendBuf_foldl (cmds : List (List Char)) :
    ∀ s : ConnState, (cmds.foldl send_command s).sendBuf =
      s.sendBuf ++ tagged_cmds s.nextCmdId cmds := by
  induction cmds with
  | nil => intro s; simp [tagged_cmds]
  | cons c cs ih =>
      intro s
      rw [List.foldl_cons, ih, tagged_cmds]
      simp [send_command]

theorem nextCmdId_foldl (cmds : List (List Char)) :
    ∀ s : ConnState, (cmds.foldl send_command s).nextCmdId =
      s.nextCmdId + cmds.length := by
  induction cmds with
  | nil => intro s; simp
  | cons c cs ih =>
      intro s
      rw [List.foldl_cons, ih]
      simp [send_command]
      omega

theorem dropWhile_space_space (l : List Char) :
    (' ' :: l).dropWhile isSpace = l.dropWhile isSpace := by
  simp [List.dropWhile_cons, isSpace]

theorem skipTok_space (t : Char) (l : List Char) :
    skipTok t (' ' :: l) = skipTok t l := by
  unfold skipTok
  rw [dropWhile_space_space]

theorem parse_string_space (l : List Char) :
    parse_string (' ' :: l) = parse_string l := by
  unfold parse_string
  rw [skipTok_space]

theorem parse_quoted_closed (s rest : List Char)
    (hs : ∀ c ∈ s, ¬ c = '"' ∧ ¬ c = '\\') :
    parse_quoted (s ++ '"' :: rest) = .ok s rest := by
  induction s with
  | nil =>
      rw [List.nil_append, parse_quoted.eq_def]
      simp
  | cons a s' ih =>
      have ha := hs a (by simp)
      rw [List.cons_append, parse_quoted.eq_def]
      simp only [if_neg ha.1, if_neg ha.2]
      rw [ih (fun c hc => hs c (List.mem_cons_of_mem _ hc))]

theorem parse_string_quoted (s rest : List Char)
    (hs : ∀ c ∈ s, ¬ c = '"' ∧ ¬ c = '\\') :
    parse_string ('"' :: (s ++ '"' :: rest)) = .ok s rest := by
  have h1 : skipTok '{' ('"' :: (s ++ '"' :: rest)) =
      (false, '"' :: (s ++ '"' :: rest)) := by
    simp [skipTok, List.dropWhile_cons, isSpace]
  have h2 : skipTok '"' ('"' :: (s ++ '"' :: rest)) =
      (true, s ++ '"' :: rest) := by
    simp [skipTok, List.dropWhile_cons, isSpace]
  simp only [parse_string, h1, h2]
  exact parse_quoted_closed s rest hs

theorem parse_address_list_nil_spec (l r : List Char)
    (hd : l.dropWhile isSpace = 'N' :: 'I' :: 'L' :: r)
    (hr : ∀ c, r.head? = some c → is_atom c = false) :
    parse_address_list l = .ok [] r := by
  have hskip : skipTok '(' l = (false, 'N' :: 'I' :: 'L' :: r) := by
    simp +decide [skipTok, hd]
  have hast : parse_astring ('N' :: 'I' :: 'L' :: r) = .ok ['N', 'I', 'L'] r := by
    rcases hr0 : r with _ | ⟨c0, r0⟩
    · simp +decide [parse_astring, List.dropWhile_cons, List.takeWhile_cons]
    · have hc0 := hr c0 (by rw [hr0]; rfl)
      simp +decide [parse_astring, List.dropWhile_cons, List.takeWhile_cons,
        hc0]
  simp only [parse_address_list, hskip, hast]
  rw [if_pos (by decide)]

theorem parse_address_list_tuple (name mb host rest : List Char)
    (hn : ∀ c ∈ name, ¬ c = '"' ∧ ¬ c = '\\')
    (hm : ∀ c ∈ mb, ¬ c = '"' ∧ ¬ c = '\\')
    (hh : ∀ c ∈ host, ¬ c = '"' ∧ ¬ c = '\\') :
    parse_address_list
        ('(' :: '(' :: '"' ::
          (name ++ '"' :: ' ' :: '"' :: '"' :: ' ' :: '"' ::
            (mb ++ '"' :: ' ' :: '"' ::
              (host ++ '"' :: ')' :: ')' :: rest)))) =
      .ok [{ name := to_unicode name,
             email := to_unicode (mb ++ '@' :: host) }] rest := by
  have hq1 : parse_string ('"' ::
      (name ++ '"' :: ' ' :: '"' :: '"' :: ' ' :: '"' ::
        (mb ++ '"' :: ' ' :: '"' :: (host ++ '"' :: ')' :: ')' :: rest)))) =
      .ok name (' ' :: '"' :: '"' :: ' ' :: '"' ::
        (mb ++ '"' :: ' ' :: '"' :: (host ++ '"' :: ')' :: ')' :: rest))) :=
    parse_string_quoted name _ hn
  have hq2 : parse_string (' ' :: '"' :: '"' :: ' ' :: '"' ::
      (mb ++ '"' :: ' ' :: '"' :: (host ++ '"' :: ')' :: ')' :: rest))) =
      .ok [] (' ' :: '"' :: (mb ++ '"' :: ' ' :: '"' ::
        (host ++ '"' :: ')' :: ')' :: rest))) := by
    rw [parse_string_space]
    have h := parse_string_quoted []
      (' ' :: '"' :: (mb ++ '"' :: ' ' :: '"' ::
        (host ++ '"' :: ')' :: ')' :: rest))) (by simp)
    simpa using h
  have hq3 : parse_string (' ' :: '"' ::
      (mb ++ '"' :: ' ' :: '"' :: (host ++ '"' :: ')' :: ')' :: rest))) =
      .ok mb (' ' :: '"' :: (host ++ '"' :: ')' :: ')' :: rest)) := by
    rw [parse_string_space]
    exact parse_string_quoted mb
      (' ' :: '"' :: (host ++ '"' :: ')' :: ')' :: rest)) hm
  have hq4 : parse_string (' ' :: '"' ::
      (host ++ '"' :: ')' :: ')' :: rest)) =
      .ok host (')' :: ')' :: rest) := by
    rw [parse_string_space]
    exact parse_string_quoted host (')' :: ')' :: rest) hh
  have hskipP : skipTok '(' ('(' :: '(' :: '"' ::
      (name ++ '"' :: ' ' :: '"' :: '"' :: ' ' :: '"' ::
        (mb ++ '"' :: ' ' :: '"' :: (host ++ '"' :: ')' :: ')' :: rest)))) =
      (true, '(' :: '"' ::
        (name ++ '"' :: ' ' :: '"' :: '"' :: ' ' :: '"' ::
          (mb ++ '"' :: ' ' :: '"' :: (host ++ '"' :: ')' :: ')' :: rest)))) := by
    simp +decide [skipTok, List.dropWhile_cons]
  have hskipR : skipTok ')' ('(' :: '"' ::
      (name ++ '"' :: ' ' :: '"' :: '"' :: ' ' :: '"' ::
        (mb ++ '"' :: ' ' :: '"' :: (host ++ '"' :: ')' :: ')' :: rest)))) =
      (false, '(' :: '"' ::
        (name ++ '"' :: ' ' :: '"' :: '"' :: ' ' :: '"' ::
          (mb ++ '"' :: ' ' :: '"' :: (host ++ '"' :: ')' :: ')' :: rest)))) := by
    simp +decide [skipTok, List.dropWhile_cons]
  have hexp : expectTok '(' ('(' :: '"' ::
      (name ++ '"' :: ' ' :: '"' :: '"' :: ' ' :: '"' ::
        (mb ++ '"' :: ' ' :: '"' :: (host ++ '"' :: ')' :: ')' :: rest)))) =
      .ok () ('"' ::
        (name ++ '"' :: ' ' :: '"' :: '"' :: ' ' :: '"' ::
          (mb ++ '"' :: ' ' :: '"' :: (host ++ '"' :: ')' :: ')' :: rest)))) := by
    simp +decide [expectTok, List.dropWhile_cons]
  have hexp2 : expectTok ')' (')' :: ')' :: rest) = .ok () (')' :: rest) := by
    simp +decide [expectTok, List.dropWhile_cons]
  have hloop2 : ∀ f : Nat, parse_address_loop (f + 1) (')' :: rest) =
      .ok [] rest := by
    intro f
    simp +decide [parse_address_loop, skipTok, List.dropWhile_cons]
  have hskipC : skipTok ')' (')' :: rest) = (true, rest) := by
    simp +decide [skipTok, List.dropWhile_cons]
  simp only [parse_address_list, hskipP, List.length_cons]
  simp only [parse_address_loop, hskipR, hskipC, hexp, PResult.bind, hq1, hq2,
    hq3, hq4, hexp2, List.length_cons, hloop2]

/-- A connection state used to exercise the theorems on concrete inputs. -/
def exConn (ss : SState) : ConnState :=
  { state := ss, user := ['u'], pw := ['p'], sendBuf := ['x'],
    writeWatch := false, nextCmdId := 5, nextReplyId := 1 }

/-- C1: command tags are assigned sequentially at send time — starting from
the freshly constructed connection, the send buffer built by a sequence of
`send_command` calls carries the tags 1, 2, 3, … in order — and a received
tagged line whose tag parses to anything other than the expected next reply
id raises the protocol-violation error `Invalid reply ID`.  The error state
carried by the raised exception is the unmodified connection object (the
expected-tag counter and all parsing state are untouched), so the handling
of subsequent, correctly-tagged lines from that state is exactly what it
would have been: parsing is not corrupted. -/
theorem C1_tags_sequential_and_mismatch_rejected :
    (∀ (u p : List Char) (cmds : List (List Char)),
      (cmds.foldl send_command (init_conn u p)).sendBuf =
        tagged_cmds 1 cmds) ∧
    (∀ (s : ConnState) (line p1 rest : List Char) (id : Int),
      skipTok '*' line = (false, p1) →
      readInt p1 = some (id, rest) →
      id ≠ s.nextReplyId →
      handle_line s line = .fatal "Invalid reply ID" s) := by
  constructor
  · intro u p cmds
    rw [sendBuf_foldl]
    simp [init_conn]
  · intro s line p1 rest id htag hid hne
    simp only [handle_line, htag, hid]
    rw [if_neg hne]

/-- Witness for C1 at concrete inputs: two queued commands get tags 1 and
2, and the tagged line `2 OK` is rejected while the expected reply id is
1. -/
theorem C1_witness :
    ((["A".toList, "B".toList].foldl send_command
        (init_conn ['u'] ['p'])).sendBuf =
      tagged_cmds 1 ["A".toList, "B".toList]) ∧
    (skipTok '*' "2 OK".toList = (false, "2 OK".toList) ∧
      readInt "2 OK".toList = some (2, " OK".toList) ∧
      (2 : Int) ≠ (init_conn ['u'] ['p']).nextReplyId ∧
      handle_line (init_conn ['u'] ['p']) "2 OK".toList =
        .fatal "Invalid reply ID" (init_conn ['u'] ['p'])) :=
  ⟨C1_tags_sequential_and_mismatch_rejected.1 ['u'] ['p']
     ["A".toList, "B".toList],
   by decide, by decide, by decide,
   C1_tags_sequential_and_mismatch_rejected.2 (init_conn ['u'] ['p'])
     "2 OK".toList "2 OK".toList " OK".toList 2
     (by decide) (by decide) (by decide)⟩

/-- C5: in the Authenticating state (`S_LOGIN`), a tagged reply with the
correct tag whose status word is not `OK` raises the fatal error
`Unable to log in`, and the send buffer of the state carried by the raised
exception is unchanged: no `SELECT INBOX` command is ever queued on the
connection. -/
theorem C5_auth_failure_fatal_no_select (s : ConnState)
    (line p1 p2 : List Char)
    (hst : s.state = SState.sLogin)
    (htag : skipTok '*' line = (false, p1))
    (hid : readInt p1 = some (s.nextReplyId, p2))
    (hw : (readWord p2).1 ≠ "OK".toList) :
    handle_line s line =
      .fatal "Unable to log in" { s with nextReplyId := s.nextReplyId + 1 } ∧
    ({ s with nextReplyId := s.nextReplyId + 1 } : ConnState).sendBuf =
      s.sendBuf := by
  refine ⟨?_, rfl⟩
  simp only [handle_line, htag, hid, if_true]
  simp only [handle_state, hst]
  simp only [Bool.false_eq_true, if_false]
  rw [if_neg hw]

/-- Witness for C5: the scenario line `1 NO Invalid credentials` received
while authenticating with expected tag 1. -/
theorem C5_witness :
    (exConn .sLogin).state = SState.sLogin ∧
    handle_line (exConn .sLogin) "1 NO Invalid credentials".toList =
      .fatal "Unable to log in" { exConn .sLogin with nextReplyId := 2 } ∧
    ({ exConn .sLogin with nextReplyId := 2 } : ConnState).sendBuf =
      (exConn .sLogin).sendBuf :=
  ⟨by decide,
   (C5_auth_failure_fatal_no_select (exConn .sLogin) _
      "1 NO Invalid credentials".toList " NO Invalid credentials".toList
      (by decide) (by decide) (by decide) (by decide)).1,
   rfl⟩

/-- C9: `try_write` tears the write-readiness subscription down exactly
when the send attempt drains the buffer: if `SSL_write` accepts all pending
bytes the write watch is removed, and if it leaves bytes pending the write
watch is installed. -/
theorem C9_write_watch_matches_pending (s : ConnState) (written : Int)
    (e : SSLError) (hpos : 0 < written)
    (hle : written.toNat ≤ s.sendBuf.length) :
    (written.toNat = s.sendBuf.length →
      try_write s written e =
        .ok { s with sendBuf := [], writeWatch := false }) ∧
    (written.toNat < s.sendBuf.length →
      try_write s written e =
        .ok { s with sendBuf := s.sendBuf.drop written.toNat,
                     writeWatch := true }) := by
  constructor
  · intro hall
    have hempty : s.sendBuf.drop written.toNat = [] := by
      rw [hall]
      exact List.drop_length _
    simp [try_write, show ¬ written ≤ 0 from by omega, hempty]
  · intro hlt
    have hne : (s.sendBuf.drop written.toNat) ≠ [] := by
      intro hcon
      have := List.drop_eq_nil_iff.mp hcon
      omega
    simp [try_write, show ¬ written ≤ 0 from by omega, hne]

/-- Witness for C9: with one byte pending, a full write removes the watch;
with three bytes pending, a partial write of two leaves it installed. -/
theorem C9_witness :
    (try_write (exConn .sIdle) 1 SSLError.wantRead =
      .ok { exConn .sIdle with sendBuf := [], writeWatch := false }) ∧
    (try_write { exConn .sIdle with sendBuf := ['a', 'b', 'c'] } 2
        SSLError.wantRead =
      .ok { exConn .sIdle with sendBuf := ['c'], writeWatch := true }) := by
  constructor
  · exact (C9_write_watch_matches_pending (exConn .sIdle) 1 SSLError.wantRead
      (by decide) (by decide)).1 (by decide)
  · have h := (C9_write_watch_matches_pending
      { exConn .sIdle with sendBuf := ['a', 'b', 'c'] } 2 SSLError.wantRead
      (by decide) (by decide)).2 (by decide)
    simpa using h

/-- C10: `fetch_message` checks no precondition on the session state: for
every current state and every message id it queues
`<next tag> FETCH <id> BODY[TEXT]`, advances the command counter, and
unconditionally sets the state to `S_FETCH_BODY`, leaving every other field
unchanged. -/
theorem C10_fetch_message_unconditional (s : ConnState) (id : Int) :
    fetch_message s id =
      { s with state := SState.sFetchBody,
               sendBuf := s.sendBuf ++ intToChars s.nextCmdId ++ ' ' ::
                 ("FETCH ".toList ++ intToChars id ++ " BODY[TEXT]".toList) ++
                 ['\r', '\n'],
               nextCmdId := s.nextCmdId + 1 } := by
  simp [fetch_message, send_command]

/-- C4 fails on the code: in the FetchingSummaries state (`S_FETCH`) a
correctly-tagged reply whose status is not OK is handled by
`throw std::runtime_error("Unable to fetch")`, which escapes
`process_recv`; the line is not handled non-fatally and the state carried
at the throw is still `S_FETCH`, not `S_IDLE`. -/
theorem C4_counterexample :
    handle_line (exConn .sFetch) "1 NO failed".toList =
      .fatal "Unable to fetch" { exConn .sFetch with nextReplyId := 2 } ∧
    (handle_line (exConn .sFetch) "1 NO failed".toList).isContinue = false ∧
    ({ exConn .sFetch with nextReplyId := 2 } : ConnState).state ≠
      SState.sIdle := by
  decide

/-- C4 amended: in the FetchingSummaries state a correctly-tagged reply
whose status word is not OK raises the fatal error `Unable to fetch` — the
exception escapes `process_recv`, so the connection does not return to
Idle; only the expected-tag counter was advanced before the throw. -/
theorem C4_fetch_non_ok_fatal (s : ConnState) (line p1 p2 : List Char)
    (hst : s.state = SState.sFetch)
    (htag : skipTok '*' line = (false, p1))
    (hid : readInt p1 = some (s.nextReplyId, p2))
    (hw : (readWord p2).1 ≠ "OK".toList) :
    handle_line s line =
      .fatal "Unable to fetch" { s with nextReplyId := s.nextReplyId + 1 } := by
  simp only [handle_line, htag, hid, if_true]
  simp only [handle_state, hst]
  simp only [Bool.false_eq_true, if_false]
  rw [if_neg hw]

/-- Witness for the amended C4 at the concrete reply `1 NO failed`. -/
theorem C4_witness :
    (exConn .sFetch).state = SState.sFetch ∧
    handle_line (exConn .sFetch) "1 NO failed".toList =
      .fatal "Unable to fetch" { exConn .sFetch with nextReplyId := 2 } :=
  ⟨by decide,
   C4_fetch_non_ok_fatal (exConn .sFetch) "1 NO failed".toList
     "1 NO failed".toList " NO failed".toList
     (by decide) (by decide) (by decide) (by decide)⟩

/-- C3 fails on the code: not every line whose parsing raises a parse error
is skipped and survived.  In the FetchingBody state (`S_FETCH_BODY`) the
untagged line `* X` makes `parser >> id` fail; the resulting
`imap_parse_error("Invalid message ID")` is raised outside the only catch
block and escapes `process_recv`: the connection does not continue. -/
theorem C3_counterexample :
    handle_line (exConn .sFetchBody) "* X".toList =
      .fatal "Invalid message ID" (exConn .sFetchBody) ∧
    (handle_line (exConn .sFetchBody) "* X".toList).isContinue = false := by
  decide

/-- C3 amended: the skip-log-continue behaviour holds exactly for the one
guarded region — in the FetchingSummaries state, when the message id and
status atom of an untagged FETCH reply parse but `parse_fetch_reply` raises
a parse error, the error is caught, logged with the raw line text, and the
connection continues with its state completely unchanged.  Parse errors
raised anywhere else escape `process_recv` and are fatal. -/
theorem C3_parse_error_isolated_to_fetch_reply (s : ConnState)
    (line p p2 p3 st : List Char) (mid : Int) (m : String)
    (hst : s.state = SState.sFetch)
    (htag : skipTok '*' line = (true, p))
    (hid : readInt p = some (mid, p2))
    (hstatus : parse_astring p2 = .ok st p3)
    (herr : parse_fetch_reply p3 = .err m) :
    handle_line s line = .ok s [.parseLog m line] := by
  simp only [handle_line, htag]
  simp only [handle_state, hst]
  simp only [hid, hstatus, herr, if_true]

/-- Witness for the amended C3: the malformed summary line `* 1 FETCH (` is
logged and skipped while fetching summaries. -/
theorem C3_witness :
    (exConn .sFetch).state = SState.sFetch ∧
    handle_line (exConn .sFetch) "* 1 FETCH (".toList =
      .ok (exConn .sFetch)
        [.parseLog "Expected an atom string" "* 1 FETCH (".toList] :=
  ⟨by decide,
   C3_parse_error_isolated_to_fetch_reply (exConn .sFetch)
     "* 1 FETCH (".toList " 1 FETCH (".toList " FETCH (".toList " (".toList
     "FETCH".toList 1 "Expected an atom string"
     (by decide) (by decide) (by decide) (by decide) (by decide)⟩

/-- C6: the needs-more-input signal is raised only by the literal-string
production — the atom production never raises it, and whenever
`parse_string` raises it the input (after skipped space) begins with the
`{` of a literal — and whenever every complete line attempt from the
current scan position raises it, the framing loop returns the start of
that line as the consumed offset: the line is retained in the buffer and
the same starting point is re-parsed from scratch once more bytes arrive
(see the incremental-feeding equivalence for the re-parse). -/
theorem C6_need_more_only_literal_and_line_retained :
    (∀ l : List Char, parse_astring l ≠ PResult.more) ∧
    (∀ l : List Char, parse_string l = PResult.more →
      (l.dropWhile isSpace).head? = some '{') ∧
    (∀ (s : ConnState) (buf : List Char) (bg i : Nat),
      (∀ j, j < buf.length → isCRLFAt buf j → i ≤ j →
        handle_line s ((buf.drop bg).take (j - bg)) = LineResult.more) →
      ∃ k, process_loop s buf bg i = ProcResult.ok bg s [] k) :=
  ⟨parse_astring_ne_more,
   fun _ h => parse_string_more_literal h,
   fun s buf bg i h => process_loop_stuck_of_more s buf bg i h⟩

/-- Buffer holding one line whose FETCH reply carries a literal `{3}` with
only two of the three payload bytes buffered. -/
def litBuf : List Char := "* 1 S (INTERNALDATE {3}\r\nab".toList

/-- Witness for C6: a truncated literal makes `parse_string` raise
needs-more, and the framer keeps the whole pending line (consumed offset
0). -/
theorem C6_witness :
    (parse_astring "NIL x".toList ≠ PResult.more) ∧
    (parse_string " {5}".toList = PResult.more ∧
      ((" {5}".toList).dropWhile isSpace).head? = some '{') ∧
    ((∀ j, j < litBuf.length → isCRLFAt litBuf j → 0 ≤ j →
        handle_line (exConn .sFetch) ((litBuf.drop 0).take (j - 0)) =
          LineResult.more) ∧
      ∃ k, process_loop (exConn .sFetch) litBuf 0 0 =
        ProcResult.ok 0 (exConn .sFetch) [] k) :=
  ⟨C6_need_more_only_literal_and_line_retained.1 "NIL x".toList,
   ⟨by decide,
    C6_need_more_only_literal_and_line_retained.2.1 " {5}".toList (by decide)⟩,
   ⟨by decide,
    C6_need_more_only_literal_and_line_retained.2.2 (exConn .sFetch) litBuf
      0 0 (by decide)⟩⟩

/-- C7 fails on the code for non-ASCII mailboxes: the produced email is
`to_unicode(mailbox + "@" + host)`, which replaces bytes at or above 128
with `?`; for mailbox `a\xFF` and host `b` the stored email `a?@b` differs
from `mailbox + "@" + host`. -/
theorem C7_counterexample :
    parse_address_list
        ('(' :: '(' :: '"' ::
          (['n'] ++ '"' :: ' ' :: '"' :: '"' :: ' ' :: '"' ::
            (['a', Char.ofNat 255] ++ '"' :: ' ' :: '"' ::
              (['b'] ++ '"' :: ')' :: ')' :: [])))) =
      .ok [{ name := ['n'], email := ['a', '?', '@', 'b'] }] [] ∧
    (['a', '?', '@', 'b'] : List Char) ≠
      ['a', Char.ofNat 255] ++ '@' :: ['b'] := by
  have h := parse_address_list_tuple ['n'] ['a', Char.ofNat 255] ['b'] []
    (by decide) (by decide) (by decide)
  constructor
  · rw [h]
    decide
  · decide

/-- C7 amended: `NIL` parses to the empty address list without an error;
every parenthesized 4-tuple `(name, ignored, mailbox, host)` (quoted
strings without escapes) yields one `Header_Address` whose name is
`to_unicode` of the tuple's name and whose email is
`to_unicode (mailbox ++ "@" ++ host)` — equal to the raw concatenation
whenever all bytes are below 128 — and an envelope whose address-list
positions are all NIL parses to an `Envelope` with every address-list
field present and empty. -/
theorem C7_address_lists_amended :
    (∀ l r : List Char, l.dropWhile isSpace = 'N' :: 'I' :: 'L' :: r →
      (∀ c, r.head? = some c → is_atom c = false) →
      parse_address_list l = .ok [] r) ∧
    (∀ name mb host rest : List Char,
      (∀ c ∈ name, ¬ c = '"' ∧ ¬ c = '\\') →
      (∀ c ∈ mb, ¬ c = '"' ∧ ¬ c = '\\') →
      (∀ c ∈ host, ¬ c = '"' ∧ ¬ c = '\\') →
      parse_address_list
          ('(' :: '(' :: '"' ::
            (name ++ '"' :: ' ' :: '"' :: '"' :: ' ' :: '"' ::
              (mb ++ '"' :: ' ' :: '"' ::
                (host ++ '"' :: ')' :: ')' :: rest)))) =
        .ok [{ name := to_unicode name,
               email := to_unicode (mb ++ '@' :: host) }] rest) ∧
    (parse_envelope "(NIL NIL NIL NIL NIL NIL NIL NIL NIL NIL)".toList =
      .ok {} []) :=
  ⟨parse_address_list_nil_spec, parse_address_list_tuple, by decide⟩

/-- Witness for the amended C7: `NIL` inside a list context, and the
round-trip tuple `("name", "", "alice", "example.com")` yielding
`alice@example.com`. -/
theorem C7_witness :
    (parse_address_list ['N', 'I', 'L', ')'] = .ok [] [')']) ∧
    (parse_address_list
        ('(' :: '(' :: '"' ::
          ("name".toList ++ '"' :: ' ' :: '"' :: '"' :: ' ' :: '"' ::
            ("alice".toList ++ '"' :: ' ' :: '"' ::
              ("example.com".toList ++ '"' :: ')' :: ')' :: [])))) =
      .ok [{ name := to_unicode "name".toList,
             email := to_unicode ("alice".toList ++ '@' ::
               "example.com".toList) }] []) ∧
    to_unicode ("alice".toList ++ '@' :: "example.com".toList) =
      "alice@example.com".toList :=
  ⟨C7_address_lists_amended.1 ['N', 'I', 'L', ')'] [')']
     (by decide) (by decide),
   C7_address_lists_amended.2.1 "name".toList "alice".toList
     "example.com".toList [] (by decide) (by decide) (by decide),
   by decide⟩

/-- C8 fails on the code for unknown fields whose value is parenthesized:
after skipping the unknown field name `X`, the loop treats the following
`(` as the next field name and `parse_astring` raises a fatal parse error
for that reply. -/
theorem C8_counterexample :
    parse_fetch_reply "(X (1))".toList = .err "Expected an atom string" ∧
    (parse_fetch_reply "(X (1))".toList).isOk = false := by
  decide

/-- C8 amended: an unknown field name is tolerated — the loop records the
diagnosed name and continues with the remaining tokens, so unknown fields
whose values are atom-shaped tokens are skipped (each consumed as a further
unknown name) and the known fields of the reply still parse; but a
bracketed value after an unknown name is a parse error (see the
counterexample). -/
theorem C8_unknown_field_skipped_with_diag :
    (∀ (fuel : Nat) (env : Envelope) (diags : List (List Char))
        (l l1 w rest : List Char),
      skipTok ')' l = (false, l1) →
      parse_astring l1 = .ok w rest →
      w ≠ "INTERNALDATE".toList → w ≠ "RFC822.SIZE".toList →
      w ≠ "FLAGS".toList → w ≠ "ENVELOPE".toList → w ≠ "BODY".toList →
      parse_fetch_fields (fuel + 1) env diags l =
        parse_fetch_fields fuel env (diags ++ [w]) rest) ∧
    (parse_fetch_reply "(UID 42 FLAGS (a) RFC822.SIZE 7)".toList =
      .ok ({}, ["UID".toList, "42".toList]) []) := by
  constructor
  · intro fuel env diags l l1 w rest hskip hatom h1 h2 h3 h4 h5
    simp only [parse_fetch_fields, hskip, hatom, PResult.bind]
    rw [if_neg h1, if_neg h2, if_neg h3, if_neg h4, if_neg h5]
  · decide

/-- Witness for the amended C8: the unknown field `UID` is diagnosed and
the loop continues at its value token. -/
theorem C8_witness :
    skipTok ')' "UID 42)".toList = (false, "UID 42)".toList) ∧
    parse_astring "UID 42)".toList = .ok "UID".toList " 42)".toList ∧
    parse_fetch_fields 6 {} [] "UID 42)".toList =
      parse_fetch_fields 5 {} ["UID".toList] " 42)".toList :=
  ⟨by decide, by decide,
   C8_unknown_field_skipped_with_diag.1 5 {} [] "UID 42)".toList
     "UID 42)".toList "UID".toList " 42)".toList
     (by decide) (by decide) (by decide) (by decide) (by decide) (by decide)
     (by decide)⟩

end Jamail
